import Mathlib

/-!
Verification of the job execution engine of `pkg/runner/run_context.go`
(act, local CI workflow runner).  The Go source is shallowly embedded:

* Go `map[string]string` values become `EnvMap := String → Option String`
  (`none` = key absent); a *nil* map pointer is modelled as an extra
  `Option` layer where the nil/non-nil distinction is observable.
* Executors (`pkg/common`, not part of the sources) are modelled from the
  spec, either as state transformers (step dispatcher) or as functions
  from a context to an event trace (container teardown).
* Regular expressions of the source are embedded as executable character
  scanners with the same semantics.
-/

/-- Environment maps: Go `map[string]string`, `none` = key absent. -/
def EnvMap : Type := String → Option String

/-- The empty environment (a freshly allocated empty Go map). -/
def emptyEnv : EnvMap := fun _ => none

/-- Go `m[k] = v`: insert/overwrite a single key. -/
def insertEnv (k v : String) (m : EnvMap) : EnvMap :=
  fun k' => if k' = k then some v else m k'

/-- Apply an ordered list of key/value writes to a map (later writes win,
as repeated Go `m[k] = v` statements do). -/
def applyUpdates (m : EnvMap) (kvs : List (String × String)) : EnvMap :=
  kvs.foldl (fun acc kv => insertEnv kv.1 kv.2 acc) m

/-- The last value written for key `k` in an ordered write list, if any. -/
def assocLast (kvs : List (String × String)) (k : String) : Option String :=
  match kvs with
  | [] => none
  | kv :: rest =>
    match assocLast rest k with
    | some v => some v
    | none => if k = kv.1 then some kv.2 else none

/-- `mergeMaps` from run_context.go: later argument maps override earlier
ones (the Go loop writes each map's entries in argument order). -/
def mergeMaps (maps : List EnvMap) : EnvMap :=
  maps.foldl (fun rtnMap m => fun k => match m k with
    | some v => some v
    | none => rtnMap k) emptyEnv

/-- `stepResult` from run_context.go.  `outputs = none` models a nil Go
map (the zero value), `outputs = some m` an allocated map. -/
structure StepRes where
  success : Bool
  outputs : Option EnvMap

/-- The step result written at step entry by `newStepExecutor`:
`&stepResult{Success: true, Outputs: make(map[string]string)}`. -/
def stepEntryResult : StepRes := ⟨true, some emptyEnv⟩

/-- The step result written by `InitStepResults`:
`&stepResult{Success: true}` (Outputs left at its nil zero value). -/
def initStepResult : StepRes := ⟨true, none⟩

/-- The fields of the engine-wide `Config` that run_context.go reads or
writes. -/
structure Config where
  env : EnvMap
  containerDaemonSocket : String
  bindWorkdir : Bool
  workdir : String
  reuseContainers : Bool
  gitHubInstance : String

/-- The result of `rc.getGithubContext()` (its derivation mixes JSON and
VCS discovery, external to the claims below, so the context is carried as
a value). -/
structure GithubCtx where
  workflow : String
  runID : String
  runNumber : String
  action : String
  actionPath : String
  actor : String
  repository : String
  eventName : String
  eventPath : String
  workspace : String
  sha : String
  ref : String
  token : String
  actionRef : String
  actionRepository : String
  baseRef : String
  headRef : String
  repositoryOwner : String
  retentionDays : String
  runnerPerflog : String
  runnerTrackingID : String

/-- `RunContext` from run_context.go, restricted to the fields the claims
touch.  `interpolate` stands for `rc.ExprEval.Interpolate`;
`containerWorkdirVal` for `rc.ContainerWorkdir()` (defined outside this
file's sources); `github` for `rc.getGithubContext()`. -/
structure RunContext where
  name : String
  workflowName : String
  config : Config
  workflowEnv : EnvMap
  jobEnv : EnvMap
  env : Option EnvMap
  actPath : String
  jobName : String
  github : GithubCtx
  runsOn : List String
  interpolate : String → String
  containerWorkdirVal : String
  stepResults : String → Option StepRes

/-- `GetActPath` from run_context.go. -/
def GetActPath (rc : RunContext) : String :=
  if rc.actPath.length > 0 then rc.actPath else "/var/run/act"

/-- `GetEnv` from run_context.go: the env is computed only when `Env` is
nil, then `Env["ACT"] = "true"` is written; returns the updated context
and the map. -/
def GetEnv (rc : RunContext) : RunContext × EnvMap :=
  let base : EnvMap :=
    match rc.env with
    | none => mergeMaps [rc.config.env, rc.workflowEnv, rc.jobEnv]
    | some m => m
  let env' := insertEnv "ACT" "true" base
  ({ rc with env := some env' }, env')

/-- The fresh step-result map built by `InitStepResults`' loop. -/
def initStepMap (keys : List String) : String → Option StepRes :=
  keys.foldl (fun m k => fun q => if q = k then some initStepResult else m q)
    (fun _ => none)

/-- `InitStepResults` from run_context.go: a fresh map is allocated and
every key is bound to `&stepResult{Success: true}`. -/
def InitStepResults (rc : RunContext) (keys : List String) : RunContext :=
  { rc with stepResults := initStepMap keys }

/-! ## Step dispatcher (`newStepExecutor`)

The per-step executor is a state transformer.  The results of the calls
it delegates to (`rc.EvalBool(step.If.Value)`, `sc.setupEnv(ctx)` and
`sc.Executor()(ctx)` — the latter two live in the external step engine)
are carried as fields, and `ε` is the type of expression evaluators. -/

/-- The inputs of one `newStepExecutor` invocation. -/
structure StepSpec (ε : Type) where
  id : String
  continueOnError : Bool
  evalBool : Except String Bool
  setupEnv : Except String ε
  execResult : Option String

/-- The `RunContext` fields `newStepExecutor` mutates. -/
structure StepState (ε : Type) where
  currentStep : String
  stepResults : String → Option StepRes
  exprEval : Option ε

/-- Go `rc.StepResults[id] = r`. -/
def setStepResult (m : String → Option StepRes) (id : String) (r : StepRes) :
    String → Option StepRes :=
  fun k => if k = id then some r else m k

/-- Go `rc.StepResults[id].Success = b` (write through the stored pointer). -/
def setSuccess (m : String → Option StepRes) (id : String) (b : Bool) :
    String → Option StepRes :=
  fun k => if k = id then (m k).map (fun r => { r with success := b }) else m k

/-- `newStepExecutor` from run_context.go (lines 366-418).  On an `if:`
evaluation error the source's `exprEval, err := sc.setupEnv(ctx)` declares
a fresh `err` that shadows the evaluation error, so the final `return err`
of that branch returns nil; the model returns `none` there accordingly. -/
def newStepExecutor {ε : Type} (sp : StepSpec ε) (st : StepState ε) :
    StepState ε × Option String :=
  let st1 : StepState ε :=
    { st with currentStep := sp.id,
              stepResults := setStepResult st.stepResults sp.id stepEntryResult }
  match sp.evalBool with
  | .error _ =>
    match sp.setupEnv with
    | .error e2 => (st1, some e2)
    | .ok ev =>
      ({ st1 with exprEval := some ev,
                  stepResults := setSuccess st1.stepResults sp.id false }, none)
  | .ok false => (st1, none)
  | .ok true =>
    match sp.setupEnv with
    | .error e2 => (st1, some e2)
    | .ok ev =>
      let st2 : StepState ε := { st1 with exprEval := some ev }
      match sp.execResult with
      | none => (st2, none)
      | some e =>
        if sp.continueOnError then
          ({ st2 with stepResults := setSuccess st2.stepResults sp.id true }, none)
        else
          ({ st2 with stepResults := setSuccess st2.stepResults sp.id false }, some e)

/-- Modelled from the spec: `common.NewPipelineExecutor` (pkg/common is
outside these sources) — short-circuit sequential composition: the first
failure stops further stages. -/
def pipelineExec {ε : Type} :
    List (StepState ε → StepState ε × Option String) → StepState ε →
    StepState ε × Option String
  | [], st => (st, none)
  | e :: rest, st =>
    match e st with
    | (st', none) => pipelineExec rest st'
    | (st', some err) => (st', some err)

/-! ## Container names (`createContainerName`, `trimToLen`) -/

/-- A character the sanitising regex `[^a-zA-Z0-9]` does *not* match. -/
def isAlnumB (c : Char) : Bool :=
  ('a' ≤ c && c ≤ 'z') || ('A' ≤ c && c ≤ 'Z') || ('0' ≤ c && c ≤ '9')

/-- A character of the matrix-suffix regex class `[0-9]`. -/
def isDigitB (c : Char) : Bool := '0' ≤ c && c ≤ '9'

/-- Go `regexp.MustCompile("[^a-zA-Z0-9]").ReplaceAllString(part, "-")`:
every non-alphanumeric character becomes a hyphen. -/
def sanitize (cs : List Char) : List Char :=
  cs.map (fun c => if isAlnumB c then c else '-')

/-- `trimToLen` from run_context.go.  A negative Go length is clamped to
0; the `Nat` subtraction at call sites saturates identically. -/
def trimToLen (s : List Char) (l : Nat) : List Char := s.take l

/-- Go `regexp.MustCompile("-[0-9]+$").FindStringSubmatch(part)`: the
leftmost match of a hyphen followed by trailing digits, i.e. the maximal
trailing digit run together with the hyphen that must precede it. -/
def matrixSuffix (cs : List Char) : Option (List Char) :=
  let rev := cs.reverse
  let dsRev := rev.takeWhile (fun c => isDigitB c)
  if !dsRev.isEmpty && ((rev.drop dsRev.length).head? == some '-') then
    some ('-' :: dsRev.reverse)
  else none

/-- Go `strings.Join(name, "-")` on character lists. -/
def joinHyphen : List (List Char) → List Char
  | [] => []
  | [x] => x
  | x :: rest => x ++ '-' :: joinHyphen rest

/-- Leading-hyphen removal (half of Go `strings.Trim(s, "-")`). -/
def ltrimHyphen (cs : List Char) : List Char := cs.dropWhile (fun c => c == '-')

/-- Trailing-hyphen removal (the other half of `strings.Trim(s, "-")`). -/
def rtrimHyphen (cs : List Char) : List Char :=
  (cs.reverse.dropWhile (fun c => c == '-')).reverse

/-- Go `strings.Trim(s, "-")`. -/
def trimHyphen (cs : List Char) : List Char := rtrimHyphen (ltrimHyphen cs)

/-- Go `strings.ReplaceAll(s, "--", "-")`: replace non-overlapping
occurrences of `--` left to right by `-` (a run of three hyphens leaves
`--` behind). -/
def collapse : List Char → List Char
  | [] => []
  | [c] => [c]
  | c1 :: c2 :: rest =>
    if c1 == '-' && c2 == '-' then '-' :: collapse rest
    else c1 :: collapse (c2 :: rest)

/-- The `name` list built by `createContainerName`'s loop: the last part
is sanitised but never trimmed; earlier parts are trimmed to `partLen`,
re-appending a detected matrix suffix. -/
def buildNameParts (partLen : Nat) : List String → List (List Char)
  | [] => []
  | [p] => [sanitize p.data]
  | p :: rest =>
    (match matrixSuffix p.data with
     | some num => [trimToLen (sanitize p.data) (partLen - num.length), num]
     | none => [trimToLen (sanitize p.data) partLen]) ++ buildNameParts partLen rest

/-- `createContainerName` from run_context.go. -/
def createContainerName (parts : List String) : String :=
  let partLen := 30 / parts.length - 1
  ⟨collapse (trimHyphen (joinHyphen (buildNameParts partLen parts)))⟩

/-- `rc.String()` (`"<workflow>/<job>"`) followed by
`rc.jobContainerName()`. -/
def jobContainerName (workflowName jobName : String) : String :=
  createContainerName ["act", workflowName ++ "/" ++ jobName]

/-- `rc.jobContainerName()` on a run context. -/
def jobContainerNameRC (rc : RunContext) : String :=
  jobContainerName rc.workflowName rc.name

/-- The claim's container-name pattern `^[A-Za-z0-9]+(-[A-Za-z0-9]+)*$`
written as an executable check: nonempty, only alphanumerics and hyphens,
no leading or trailing hyphen and no `--` run.  (Stated from the spec's
words, to be compared with the code's output.) -/
def containsDoubleDash : List Char → Bool
  | '-' :: '-' :: _ => true
  | _ :: rest => containsDoubleDash rest
  | [] => false

/-- Decidable form of the spec's name regex (see `containsDoubleDash`). -/
def specNamePattern (s : String) : Bool :=
  let cs := s.data
  !cs.isEmpty && cs.all (fun c => isAlnumB c || c == '-')
    && !(cs.head? == some '-') && !(cs.getLast? == some '-')
    && !containsDoubleDash cs

/-! ## Expression gate (`EvalBool` token loop) -/

/-- The characters of the operator token class. -/
def operatorChars : List Char := ['!', '=', '>', '<', '|', '&']

/-- Modelled from the spec: `operatorPattern` of the tokeniser (defined
in the runner package outside these sources): a token consisting solely
of operator characters. -/
def operatorPatternMatch (s : String) : Bool :=
  !s.data.isEmpty && s.data.all (fun c => operatorChars.contains c)

/-- Whether a character list contains the substring `}}`. -/
def containsCloseBraces : List Char → Bool
  | '}' :: '}' :: _ => true
  | _ :: rest => containsCloseBraces rest
  | [] => false

/-- Whether a character list starts with `${{`. -/
def startsWithDollarBraces : List Char → Bool
  | '$' :: '{' :: '{' :: _ => true
  | _ => false

/-- Modelled from the spec: `expressionPattern`
(`\${{\s*(.+?)\s*}}`, defined outside these sources); `MatchString`
succeeds iff the token contains `${{` followed, at least one character
later, by `}}`. -/
def hasExprBlock (cs : List Char) : Bool :=
  (List.range cs.length).any (fun i =>
    startsWithDollarBraces (cs.drop i) && containsCloseBraces (cs.drop (i + 4)))

/-- `expressionPattern.MatchString` on a token. -/
def expressionPatternMatch (s : String) : Bool := hasExprBlock s.data

/-- `previousOrNextPartIsAnOperator` from run_context.go. -/
def previousOrNextPartIsAnOperator (i : Nat) (parts : List String) : Bool :=
  let operator := if i > 0 then operatorPatternMatch (parts.getD (i - 1) "") else false
  if i + 1 < parts.length then operator || operatorPatternMatch (parts.getD (i + 1) "")
  else operator

/-- Go `fmt.Sprintf("'%s'", s)`. -/
def squote (s : String) : String := "'" ++ s ++ "'"

/-- One iteration of `EvalBool`'s token loop (run_context.go lines
506-527): operator tokens pass through; other tokens are interpolated by
`InterpolateWithStringCheck` (carried as the function `interp`, returning
the interpolation and the is-string flag) and quoted under the source's
condition. -/
def evalBoolToken (interp : String → String × Bool) (parts : List String) (i : Nat) :
    String :=
  let part := parts.getD i ""
  if operatorPatternMatch part then part
  else
    let ip := interp part
    if expressionPatternMatch part && !part.data.contains '!' && (ip.1 == "false")
        && (ip.2 || previousOrNextPartIsAnOperator i parts) then
      squote ip.1
    else ip.1

/-- The token loop from index `i` on. -/
def evalBoolLoop (interp : String → String × Bool) (parts : List String) (i : Nat) :
    List String :=
  if _h : i < parts.length then
    evalBoolToken interp parts i :: evalBoolLoop interp parts (i + 1)
  else []
termination_by parts.length - i

/-- The `evaluatedParts` list built by `EvalBool`. -/
def evalBoolParts (interp : String → String × Bool) (parts : List String) :
    List String :=
  evalBoolLoop interp parts 0

/-! ## Environment builder (`withGithubEnv`) -/

/-- Go `strings.Replace(s, "-", "", 1)`: drop the first hyphen. -/
def removeFirstHyphen : List Char → List Char
  | [] => []
  | c :: rest => if c == '-' then rest else c :: removeFirstHyphen rest

/-- Go `strings.SplitN(s, ".", 2)[0]`: everything before the first dot. -/
def beforeFirstDot (cs : List Char) : List Char := cs.takeWhile (fun c => c != '.')

/-- The `ImageOS` value derived from one non-empty platform name
(run_context.go lines 877-883). -/
def imageOSTransform (platformName : String) : String :=
  if platformName = "ubuntu-latest" then "ubuntu20"
  else ⟨beforeFirstDot (removeFirstHyphen platformName.data)⟩

/-- The ordered `env["ImageOS"] = ...` writes of the `runs-on` loop. -/
def imageOSUpdatesOf (interp : String → String) : List String → List (String × String)
  | [] => []
  | runnerLabel :: rest =>
    let platformName := interp runnerLabel
    (if platformName = "" then [] else [("ImageOS", imageOSTransform platformName)])
      ++ imageOSUpdatesOf interp rest

/-- The writes of run_context.go lines 835-841 (up to the conditional
`GITHUB_ACTION_PATH`). -/
def githubUpdatesHead (rc : RunContext) : List (String × String) :=
  [("CI", "true"),
   ("GITHUB_ENV", GetActPath rc ++ "/workflow/envs.txt"),
   ("GITHUB_PATH", GetActPath rc ++ "/workflow/paths.txt"),
   ("GITHUB_WORKFLOW", rc.github.workflow),
   ("GITHUB_RUN_ID", rc.github.runID),
   ("GITHUB_RUN_NUMBER", rc.github.runNumber),
   ("GITHUB_ACTION", rc.github.action)]

/-- The conditional `GITHUB_ACTION_PATH` write (line 842-844). -/
def githubActionPathUpdate (rc : RunContext) : List (String × String) :=
  if rc.github.actionPath ≠ "" then [("GITHUB_ACTION_PATH", rc.github.actionPath)]
  else []

/-- The writes of run_context.go lines 845-865. -/
def githubUpdatesMain (rc : RunContext) : List (String × String) :=
  [("GITHUB_ACTIONS", "true"),
   ("GITHUB_ACTOR", rc.github.actor),
   ("GITHUB_REPOSITORY", rc.github.repository),
   ("GITHUB_EVENT_NAME", rc.github.eventName),
   ("GITHUB_EVENT_PATH", rc.github.eventPath),
   ("GITHUB_WORKSPACE", rc.github.workspace),
   ("GITHUB_SHA", rc.github.sha),
   ("GITHUB_REF", rc.github.ref),
   ("GITHUB_TOKEN", rc.github.token),
   ("GITHUB_SERVER_URL", "https://github.com"),
   ("GITHUB_API_URL", "https://api.github.com"),
   ("GITHUB_GRAPHQL_URL", "https://api.github.com/graphql"),
   ("GITHUB_ACTION_REF", rc.github.actionRef),
   ("GITHUB_ACTION_REPOSITORY", rc.github.actionRepository),
   ("GITHUB_BASE_REF", rc.github.baseRef),
   ("GITHUB_HEAD_REF", rc.github.headRef),
   ("GITHUB_JOB", rc.jobName),
   ("GITHUB_REPOSITORY_OWNER", rc.github.repositoryOwner),
   ("GITHUB_RETENTION_DAYS", rc.github.retentionDays),
   ("RUNNER_PERFLOG", rc.github.runnerPerflog),
   ("RUNNER_TRACKING_ID", rc.github.runnerTrackingID)]

/-- The `GitHubInstance` URL rewrites (lines 866-870). -/
def githubInstanceUpdates (rc : RunContext) : List (String × String) :=
  if rc.config.gitHubInstance ≠ "github.com" then
    [("GITHUB_SERVER_URL", "https://" ++ rc.config.gitHubInstance),
     ("GITHUB_API_URL", "https://" ++ rc.config.gitHubInstance ++ "/api/v3"),
     ("GITHUB_GRAPHQL_URL", "https://" ++ rc.config.gitHubInstance ++ "/api/graphql")]
  else []

/-- The ordered sequence of `env[...] = ...` writes performed by
`withGithubEnv` (run_context.go lines 833-889). -/
def githubEnvUpdates (rc : RunContext) : List (String × String) :=
  githubUpdatesHead rc
  ++ githubActionPathUpdate rc
  ++ githubUpdatesMain rc
  ++ githubInstanceUpdates rc
  ++ imageOSUpdatesOf rc.interpolate rc.runsOn

/-- `withGithubEnv` from run_context.go: overlay the github/runner
variables on the given map. -/
def withGithubEnv (rc : RunContext) (env : EnvMap) : EnvMap :=
  applyUpdates env (githubEnvUpdates rc)

/-! ## Binds & mounts (`GetBindsAndMounts`) -/

/-- `GetBindsAndMounts` from run_context.go.  `goos` carries
`runtime.GOOS`.  The (possibly updated) run context is returned alongside
the binds and the mounts, mirroring the in-place write of
`rc.Config.ContainerDaemonSocket`. -/
def GetBindsAndMounts (goos : String) (rc : RunContext) :
    RunContext × List String × List (String × String) :=
  let name := jobContainerNameRC rc
  let rc1 :=
    if rc.config.containerDaemonSocket = "" then
      { rc with config := { rc.config with containerDaemonSocket := "/var/run/docker.sock" } }
    else rc
  let binds := [rc1.config.containerDaemonSocket ++ ":" ++ "/var/run/docker.sock"]
  let mounts := [("act-toolcache", "/toolcache"), (name ++ "-env", GetActPath rc1)]
  if rc1.config.bindWorkdir then
    let bindModifiers := if goos = "darwin" then ":delegated" else ""
    (rc1, binds ++ [rc1.config.workdir ++ ":" ++ rc1.containerWorkdirVal ++ bindModifiers],
     mounts)
  else
    (rc1, binds, mounts ++ [(name, rc1.containerWorkdirVal)])

/-! ## Teardown (`stopJobContainer`)

Executors of the container lifecycle are modelled as functions from a
context to the trace of container operations they perform (each event
records the context it ran under) plus an error.  The combinators of
`pkg/common` are outside these sources and are modelled from the spec. -/

/-- A cancellation-carrying context with a logger binding. -/
structure Ctx where
  cancelled : Bool
  logger : String
deriving DecidableEq

/-- `common.WithLogger(context.Background(), common.Logger(ctx))`: a
detached context carrying only the logger binding. -/
def detach (c : Ctx) : Ctx := ⟨false, c.logger⟩

/-- Observable container operations, each recording the context it was
invoked under. -/
inductive CEvent where
  | remove (c : Ctx)
  | volumeRemove (name : String) (c : Ctx)
  | close (c : Ctx)
deriving DecidableEq

/-- A lifecycle executor: context → (operation trace, error). -/
def CExec : Type := Ctx → List CEvent × Option String

/-- Modelled from the spec: `Executor.Then` — run self; if it succeeds,
run next; propagate the first failure. -/
def cThen (a b : CExec) : CExec := fun c =>
  match a c with
  | (t, none) => let r := b c; (t ++ r.1, r.2)
  | (t, some e) => (t, some e)

/-- Modelled from the spec: `Executor.If` — evaluate self only when the
predicate holds; otherwise yield success. -/
def cIf (p : Ctx → Bool) (a : CExec) : CExec := fun c =>
  if p c then a c else ([], none)

/-- Modelled from the spec: `Executor.Finally` — cleanup runs regardless
of the outcome, under a detached logger-only context; self's failure is
surfaced in preference to cleanup's. -/
def cFinally (a f : CExec) : CExec := fun c =>
  let r1 := a c
  let r2 := f (detach c)
  (r1.1 ++ r2.1, match r1.2 with | some e => some e | none => r2.2)

/-- The container handle as teardown sees it: its HostExecutor
discrimination and the outcomes of its `Remove()` and `Close()`. -/
structure ContainerHandle where
  isHost : Bool
  removeErr : Option String
  closeErr : Option String

/-- `rc.JobContainer.Remove()`. -/
def removeExec (h : ContainerHandle) : CExec := fun c => ([CEvent.remove c], h.removeErr)

/-- `rc.JobContainer.Close()`. -/
def closeExec (h : ContainerHandle) : CExec := fun c => ([CEvent.close c], h.closeErr)

/-- Modelled from the spec: `container.NewDockerVolumeRemoveExecutor
(name, false)` — a volume-remove executor instantiated by name. -/
def dockerVolumeRemoveExec (name : String) : CExec :=
  fun c => ([CEvent.volumeRemove name c], none)

/-- `stopJobContainer` from run_context.go (lines 288-299): when the job
container is set and containers are not reused, run
`Remove().Then(volume-remove.If(not host)).Finally(Close())` under the
detached logger-only context; otherwise do nothing. -/
def stopJobContainer (jc : Option ContainerHandle) (reuseContainers : Bool)
    (name : String) : CExec :=
  fun ctx =>
    match jc with
    | some h =>
      if !reuseContainers then
        cFinally (cThen (removeExec h) (cIf (fun _ => !h.isHost) (dockerVolumeRemoveExec name)))
          (closeExec h) (detach ctx)
      else ([], none)
    | none => ([], none)

/-! ## Sample values for concrete instantiations -/

/-- The last non-empty interpolated `runs-on` platform name. -/
def lastNonEmptyPlatform (interp : String → String) (labels : List String) :
    Option String :=
  ((labels.map interp).filter (fun p => p ≠ "")).getLast?

/-- An all-blank github context. -/
def gc0 : GithubCtx :=
  ⟨"", "", "", "", "", "", "", "", "", "", "", "", "", "", "", "", "", "", "", "", ""⟩

/-- An all-blank engine configuration. -/
def config0 : Config := ⟨emptyEnv, "", false, "", false, ""⟩

/-- A neutral run context used to instantiate the theorems below. -/
def rc0 : RunContext :=
  { name := "", workflowName := "", config := config0, workflowEnv := emptyEnv,
    jobEnv := emptyEnv, env := none, actPath := "", jobName := "", github := gc0,
    runsOn := [], interpolate := id, containerWorkdirVal := "",
    stepResults := fun _ => none }

/-! # Theorems -/

/-! ## Map update lemmas -/

theorem assocLast_cons (kv : String × String) (rest : List (String × String))
    (k : String) :
    assocLast (kv :: rest) k =
      match assocLast rest k with
      | some v => some v
      | none => if k = kv.1 then some kv.2 else none := rfl

theorem applyUpdates_apply (kvs : List (String × String)) :
    ∀ (m : EnvMap) (k : String),
      applyUpdates m kvs k =
        match assocLast kvs k with
        | some v => some v
        | none => m k := by
  induction kvs with
  | nil => intro m k; rfl
  | cons kv rest ih =>
    intro m k
    show applyUpdates (insertEnv kv.1 kv.2 m) rest k = _
    rw [ih, assocLast_cons]
    rcases hr : assocLast rest k with _ | v
    · show insertEnv kv.1 kv.2 m k = _
      unfold insertEnv
      by_cases h : k = kv.1 <;> simp [h]
    · rfl

theorem assocLast_append (a b : List (String × String)) (k : String) :
    assocLast (a ++ b) k =
      match assocLast b k with
      | some v => some v
      | none => assocLast a k := by
  induction a with
  | nil =>
    show assocLast b k = _
    cases assocLast b k <;> rfl
  | cons kv rest ih =>
    show assocLast (kv :: (rest ++ b)) k = _
    rw [assocLast_cons, ih, assocLast_cons]
    cases assocLast b k with
    | some v => rfl
    | none => cases assocLast rest k <;> rfl

/-! ## C8: GetEnv -/

theorem mergeMaps_three (a b c : EnvMap) (k : String) :
    mergeMaps [a, b, c] k =
      match c k with
      | some v => some v
      | none =>
        match b k with
        | some v => some v
        | none => a k := by
  show (match c k with
        | some v => some v
        | none =>
          match b k with
          | some v => some v
          | none =>
            match a k with
            | some v => some v
            | none => emptyEnv k) = _
  cases a k <;> cases b k <;> cases c k <;> rfl

/-- C8: `GetEnv` computes the merge of `Config.Env`, workflow env and job
env only when `Env` is nil (otherwise the stored map is reused); the merge
gives a key the job value over the workflow value over the Config value;
and the returned map always binds `ACT` to `"true"`. -/
theorem getEnv_spec (rc : RunContext) :
    (rc.env = none →
      (GetEnv rc).2 = insertEnv "ACT" "true"
        (mergeMaps [rc.config.env, rc.workflowEnv, rc.jobEnv])) ∧
    (∀ m, rc.env = some m → (GetEnv rc).2 = insertEnv "ACT" "true" m) ∧
    (∀ k, mergeMaps [rc.config.env, rc.workflowEnv, rc.jobEnv] k =
      match rc.jobEnv k with
      | some v => some v
      | none =>
        match rc.workflowEnv k with
        | some v => some v
        | none => rc.config.env k) ∧
    (GetEnv rc).2 "ACT" = some "true" := by
  refine ⟨?_, ?_, ?_, ?_⟩
  · intro h; simp [GetEnv, h]
  · intro m h; simp [GetEnv, h]
  · intro k; exact mergeMaps_three _ _ _ k
  · simp [GetEnv, insertEnv]

/-- C8 witness: both the lazy branch (nil `Env`, at `rc0`) and the reuse
branch (`Env` already set) instantiated concretely. -/
theorem getEnv_spec_witness :
    (GetEnv rc0).2 "ACT" = some "true" ∧
    (GetEnv rc0).2 = insertEnv "ACT" "true"
      (mergeMaps [rc0.config.env, rc0.workflowEnv, rc0.jobEnv]) ∧
    (GetEnv { rc0 with env := some emptyEnv }).2 = insertEnv "ACT" "true" emptyEnv :=
  ⟨(getEnv_spec rc0).2.2.2, (getEnv_spec rc0).1 rfl,
   (getEnv_spec { rc0 with env := some emptyEnv }).2.1 emptyEnv rfl⟩

/-! ## C10: InitStepResults -/

theorem initStepMap_apply (keys : List String) :
    ∀ (m : String → Option StepRes) (k : String),
      (keys.foldl (fun m k => fun q => if q = k then some initStepResult else m q) m) k
        = if keys.contains k then some initStepResult else m k := by
  induction keys with
  | nil => intro m k; simp
  | cons key rest ih =>
    intro m k
    rw [List.foldl_cons, ih]
    by_cases hr : rest.contains k
    · have hm : k ∈ rest := by simpa using hr
      simp [List.contains_cons, hm]
    · have hm : k ∉ rest := by simpa using hr
      by_cases hk : k = key <;>
        simp [List.contains_cons, hm, hk]

/-- C10: after `InitStepResults(keys)` the step-result map binds exactly
the listed keys (whatever was stored before is discarded: the result does
not depend on the previous map), each to `Success = true` with the
`Outputs` map left at its nil zero value — unlike the allocated empty map
written at step entry. -/
theorem initStepResults_spec (rc : RunContext) (keys : List String) (k : String) :
    ((InitStepResults rc keys).stepResults k =
      if keys.contains k then some initStepResult else none) ∧
    initStepResult.success = true ∧
    initStepResult.outputs = none ∧
    initStepResult ≠ stepEntryResult := by
  refine ⟨?_, rfl, rfl, ?_⟩
  · show initStepMap keys k = _
    rw [initStepMap, initStepMap_apply]
  · intro h
    simp [initStepResult, stepEntryResult] at h

/-! ## C5: GetBindsAndMounts and Config immutability -/

/-- C5 counterexample: with an empty `ContainerDaemonSocket`,
`GetBindsAndMounts` writes the default `/var/run/docker.sock` into the
shared `Config`, so `Config` is not left unchanged. -/
theorem getBindsAndMounts_mutates_config :
    rc0.config.containerDaemonSocket = "" ∧
    (GetBindsAndMounts "linux" rc0).1.config.containerDaemonSocket
      = "/var/run/docker.sock" ∧
    (GetBindsAndMounts "linux" rc0).1.config ≠ rc0.config := by
  refine ⟨rfl, rfl, ?_⟩
  intro h
  have h2 := congrArg Config.containerDaemonSocket h
  rw [show (GetBindsAndMounts "linux" rc0).1.config.containerDaemonSocket
        = "/var/run/docker.sock" from rfl] at h2
  exact absurd h2 (by decide)

/-- C5 (amended): the only `Config` field `GetBindsAndMounts` writes is
`ContainerDaemonSocket`, which it defaults to `/var/run/docker.sock`
exactly when it was empty; every other `Config` field — and, when the
socket is nonempty, the whole run context — is left unchanged. -/
theorem getBindsAndMounts_fst (goos : String) (rc : RunContext) :
    (GetBindsAndMounts goos rc).1 =
      if rc.config.containerDaemonSocket = "" then
        { rc with config :=
            { rc.config with containerDaemonSocket := "/var/run/docker.sock" } }
      else rc := by
  unfold GetBindsAndMounts
  by_cases h : rc.config.containerDaemonSocket = "" <;> simp [h] <;> split <;> rfl

theorem getBindsAndMounts_config_frame (goos : String) (rc : RunContext) :
    ((GetBindsAndMounts goos rc).1.config =
      { rc.config with containerDaemonSocket :=
          if rc.config.containerDaemonSocket = "" then "/var/run/docker.sock"
          else rc.config.containerDaemonSocket }) ∧
    (rc.config.containerDaemonSocket ≠ "" → (GetBindsAndMounts goos rc).1 = rc) := by
  constructor
  · rw [getBindsAndMounts_fst]
    by_cases h : rc.config.containerDaemonSocket = "" <;> simp [h]
  · intro h
    rw [getBindsAndMounts_fst]
    simp [h]

/-- C5 witness: a nonempty daemon socket is preserved and nothing else
changes. -/
theorem getBindsAndMounts_config_frame_witness :
    (GetBindsAndMounts "linux"
        { rc0 with config := { config0 with containerDaemonSocket := "sock" } }).1.config
      = { config0 with containerDaemonSocket := "sock" } ∧
    (GetBindsAndMounts "linux"
        { rc0 with config := { config0 with containerDaemonSocket := "sock" } }).1
      = { rc0 with config := { config0 with containerDaemonSocket := "sock" } } := by
  constructor
  · have h := (getBindsAndMounts_config_frame "linux"
      { rc0 with config := { config0 with containerDaemonSocket := "sock" } }).1
    simpa using h
  · exact (getBindsAndMounts_config_frame "linux"
      { rc0 with config := { config0 with containerDaemonSocket := "sock" } }).2
      (by decide)

/-! ## C6: stopJobContainer -/

/-- C6: the executor returned by `stopJobContainer` does nothing (and
succeeds) when the job container is unset or containers are reused;
otherwise it runs `Remove()`, then — unless the handle is a
HostExecutor — the docker volume-remove for the container name, and
finally `Close()`, every operation under the detached context that
carries only the logger binding. -/
theorem stopJobContainer_spec (jc : Option ContainerHandle) (reuse : Bool)
    (name : String) (ctx : Ctx) :
    ((jc = none ∨ reuse = true) → stopJobContainer jc reuse name ctx = ([], none)) ∧
    (∀ h, jc = some h → reuse = false → h.removeErr = none →
      stopJobContainer jc reuse name ctx =
        (CEvent.remove (detach ctx) ::
          ((if h.isHost then [] else [CEvent.volumeRemove name (detach ctx)])
            ++ [CEvent.close (detach ctx)]),
         h.closeErr)) := by
  constructor
  · rintro (hn | hr)
    · simp [stopJobContainer, hn]
    · cases jc with
      | none => simp [stopJobContainer]
      | some h => simp [stopJobContainer, hr]
  · rintro h rfl rfl hre
    show cFinally (cThen (removeExec h) (cIf (fun _ => !h.isHost) (dockerVolumeRemoveExec name)))
        (closeExec h) (detach ctx) = _
    have hdd : detach (detach ctx) = detach ctx := rfl
    by_cases hh : h.isHost <;>
      simp [cFinally, cThen, cIf, removeExec, closeExec, dockerVolumeRemoveExec,
        hre, hdd, hh]

/-- C6 witness: a concrete non-host handle with successful `Remove` under
a cancelled outer context, and the unset-container case. -/
theorem stopJobContainer_spec_witness :
    stopJobContainer (some ⟨false, none, none⟩) false "n" ⟨true, "log"⟩ =
      ([CEvent.remove ⟨false, "log"⟩, CEvent.volumeRemove "n" ⟨false, "log"⟩,
        CEvent.close ⟨false, "log"⟩], none) ∧
    stopJobContainer none false "n" ⟨true, "log"⟩ = ([], none) := by
  constructor
  · have h := (stopJobContainer_spec (some ⟨false, none, none⟩) false "n" ⟨true, "log"⟩).2
      ⟨false, none, none⟩ rfl rfl rfl
    simpa [detach] using h
  · exact (stopJobContainer_spec none false "n" ⟨true, "log"⟩).1 (Or.inl rfl)

/-! ## C1: step executor on if-expression evaluation error -/

/-- C1 (evaluation at the failing input): when `EvalBool` fails and
`setupEnv` succeeds, the step executor marks the step result failed but
returns `none` — not the evaluation error `"boom"` — because the source's
`exprEval, err := sc.setupEnv(ctx)` shadows the evaluation error and the
branch ends with `return err` on the shadowed, nil variable. -/
theorem stepExecutor_ifError_returns_nil :
    (newStepExecutor (ε := Unit) ⟨"s1", false, .error "boom", .ok (), none⟩
      ⟨"", fun _ => none, none⟩).2 = none ∧
    ((newStepExecutor (ε := Unit) ⟨"s1", false, .error "boom", .ok (), none⟩
      ⟨"", fun _ => none, none⟩).1.stepResults "s1").map StepRes.success = some false ∧
    (newStepExecutor (ε := Unit) ⟨"s1", false, .error "boom", .ok (), none⟩
      ⟨"", fun _ => none, none⟩).2 ≠ some "boom" := by
  refine ⟨rfl, ?_, fun hc => by rw [show (newStepExecutor (ε := Unit)
    ⟨"s1", false, .error "boom", .ok (), none⟩
    ⟨"", fun _ => none, none⟩).2 = none from rfl] at hc; cases hc⟩
  show ((setSuccess (setStepResult (fun _ => none) "s1" stepEntryResult) "s1" false)
      "s1").map StepRes.success = some false
  simp [setSuccess, setStepResult]

/-! ## C4: ContinueOnError -/

/-- C4: when the delegated step executor fails, a step declaring
`ContinueOnError` swallows the error (`none` is returned, so the next
pipeline stage still runs) and keeps `Success = true`; a step without it
gets `Success = false` and the error is propagated. -/
theorem stepExecutor_continueOnError {ε : Type} (sp : StepSpec ε) (st : StepState ε)
    (ev : ε) (e : String) (h1 : sp.evalBool = .ok true) (h2 : sp.setupEnv = .ok ev)
    (h3 : sp.execResult = some e) :
    (sp.continueOnError = true →
      (newStepExecutor sp st).2 = none ∧
      ((newStepExecutor sp st).1.stepResults sp.id).map StepRes.success = some true ∧
      ∀ rest, pipelineExec (newStepExecutor sp :: rest) st
        = pipelineExec rest (newStepExecutor sp st).1) ∧
    (sp.continueOnError = false →
      (newStepExecutor sp st).2 = some e ∧
      ((newStepExecutor sp st).1.stepResults sp.id).map StepRes.success = some false) := by
  have hstep : newStepExecutor sp st =
      (if sp.continueOnError then
        ({ currentStep := sp.id,
           stepResults := setSuccess (setStepResult st.stepResults sp.id stepEntryResult)
             sp.id true,
           exprEval := some ev }, none)
      else
        ({ currentStep := sp.id,
           stepResults := setSuccess (setStepResult st.stepResults sp.id stepEntryResult)
             sp.id false,
           exprEval := some ev }, some e)) := by
    unfold newStepExecutor
    rw [h1, h2, h3]
  constructor
  · intro hc
    rw [hstep, if_pos hc]
    refine ⟨rfl, ?_, ?_⟩
    · simp [setSuccess, setStepResult]
    · intro rest
      rw [pipelineExec, hstep, if_pos hc]
  · intro hc
    rw [hstep, if_neg (by simp [hc])]
    refine ⟨rfl, ?_⟩
    simp [setSuccess, setStepResult]

/-- C4 witness: a failing step with and without `ContinueOnError`. -/
theorem stepExecutor_continueOnError_witness :
    (newStepExecutor (ε := Unit) ⟨"s1", true, .ok true, .ok (), some "err"⟩
      ⟨"", fun _ => none, none⟩).2 = none ∧
    ((newStepExecutor (ε := Unit) ⟨"s1", true, .ok true, .ok (), some "err"⟩
      ⟨"", fun _ => none, none⟩).1.stepResults "s1").map StepRes.success = some true ∧
    (newStepExecutor (ε := Unit) ⟨"s1", false, .ok true, .ok (), some "err"⟩
      ⟨"", fun _ => none, none⟩).2 = some "err" :=
  ⟨((stepExecutor_continueOnError _ _ () "err" rfl rfl rfl).1 rfl).1,
   ((stepExecutor_continueOnError _ _ () "err" rfl rfl rfl).1 rfl).2.1,
   ((stepExecutor_continueOnError _ _ () "err" rfl rfl rfl).2 rfl).1⟩

/-! ## C9 / C7: withGithubEnv -/

/-- C9: `withGithubEnv` writes values that depend only on the run
context, never on the incoming map, so applying it twice equals applying
it once. -/
theorem withGithubEnv_idempotent (rc : RunContext) (env : EnvMap) :
    withGithubEnv rc (withGithubEnv rc env) = withGithubEnv rc env := by
  funext k
  show applyUpdates (applyUpdates env (githubEnvUpdates rc)) (githubEnvUpdates rc) k
    = applyUpdates env (githubEnvUpdates rc) k
  rw [applyUpdates_apply (githubEnvUpdates rc)
    (applyUpdates env (githubEnvUpdates rc)) k]
  cases h : assocLast (githubEnvUpdates rc) k with
  | some v => rw [applyUpdates_apply, h]
  | none => rfl

theorem getLast?_cons_or {α : Type} (a : α) (l : List α) :
    (a :: l).getLast? = some (l.getLast?.getD a) := by
  cases l with
  | nil => rfl
  | cons b t =>
    rw [List.getLast?_cons_cons]
    have h : (b :: t).getLast?.isSome := by simp [List.getLast?_isSome]
    obtain ⟨x, hx⟩ := Option.isSome_iff_exists.mp h
    rw [hx]
    rfl

theorem assocLast_eq_none (k : String) :
    ∀ (kvs : List (String × String)), (∀ kv ∈ kvs, kv.1 ≠ k) → assocLast kvs k = none := by
  intro kvs
  induction kvs with
  | nil => intro _; rfl
  | cons kv rest ih =>
    intro h
    rw [assocLast_cons, ih (fun x hx => h x (List.mem_cons_of_mem kv hx))]
    have hk : kv.1 ≠ k := h kv (List.mem_cons_self kv rest)
    simp [Ne.symm hk]

theorem assocLast_imageOSUpdates (interp : String → String) (labels : List String) :
    assocLast (imageOSUpdatesOf interp labels) "ImageOS" =
      (lastNonEmptyPlatform interp labels).map imageOSTransform := by
  induction labels with
  | nil => rfl
  | cons l rest ih =>
    show assocLast
      ((if interp l = "" then [] else [("ImageOS", imageOSTransform (interp l))])
        ++ imageOSUpdatesOf interp rest) "ImageOS" = _
    rw [assocLast_append, ih]
    have hcons : lastNonEmptyPlatform interp (l :: rest) =
        if interp l = "" then lastNonEmptyPlatform interp rest
        else some ((lastNonEmptyPlatform interp rest).getD (interp l)) := by
      unfold lastNonEmptyPlatform
      rw [List.map_cons, List.filter_cons]
      by_cases h : interp l = ""
      · simp [h]
      · rw [if_pos (by simpa using h), if_neg h]
        exact getLast?_cons_or (interp l) ((rest.map interp).filter (fun p => p ≠ ""))
    rw [hcons]
    by_cases h : interp l = ""
    · rw [if_pos h, if_pos h]
      cases (lastNonEmptyPlatform interp rest).map imageOSTransform <;> rfl
    · rw [if_neg h, if_neg h]
      cases hres : lastNonEmptyPlatform interp rest <;>
        simp [hres, assocLast_cons, assocLast]

theorem assocLast_append_left_none (X Y : List (String × String)) (k : String)
    (h : assocLast X k = none) : assocLast (X ++ Y) k = assocLast Y k := by
  rw [assocLast_append]
  cases assocLast Y k with
  | some v => rfl
  | none => exact h

theorem assocLast_githubUpdatesHead (rc : RunContext) :
    assocLast (githubUpdatesHead rc) "ImageOS" = none := by
  simp [githubUpdatesHead, assocLast_cons, assocLast]

theorem assocLast_githubActionPathUpdate (rc : RunContext) :
    assocLast (githubActionPathUpdate rc) "ImageOS" = none := by
  unfold githubActionPathUpdate
  split <;> simp [assocLast_cons, assocLast]

theorem assocLast_githubUpdatesMain (rc : RunContext) :
    assocLast (githubUpdatesMain rc) "ImageOS" = none := by
  simp [githubUpdatesMain, assocLast_cons, assocLast]

theorem assocLast_githubInstanceUpdates (rc : RunContext) :
    assocLast (githubInstanceUpdates rc) "ImageOS" = none := by
  unfold githubInstanceUpdates
  split <;> simp [assocLast_cons, assocLast]

/-- C7 (amended): `env["ImageOS"]` comes from the **last** non-empty
interpolated `runs-on` label (each non-empty label overwrites the
previous write; the loop does not stop at the first), `ubuntu-latest`
pinned to `ubuntu20`, any other label with its first hyphen removed and
truncated before the first dot; with no non-empty label the key is left
as it was in the incoming map. -/
theorem withGithubEnv_imageOS (rc : RunContext) (env : EnvMap) :
    withGithubEnv rc env "ImageOS" =
      match lastNonEmptyPlatform rc.interpolate rc.runsOn with
      | some p => some (imageOSTransform p)
      | none => env "ImageOS" := by
  show applyUpdates env (githubEnvUpdates rc) "ImageOS" = _
  rw [applyUpdates_apply]
  have hlast : assocLast (githubEnvUpdates rc) "ImageOS"
      = (lastNonEmptyPlatform rc.interpolate rc.runsOn).map imageOSTransform := by
    unfold githubEnvUpdates
    simp only [List.append_assoc]
    rw [assocLast_append_left_none _ _ _ (assocLast_githubUpdatesHead rc),
        assocLast_append_left_none _ _ _ (assocLast_githubActionPathUpdate rc),
        assocLast_append_left_none _ _ _ (assocLast_githubUpdatesMain rc),
        assocLast_append_left_none _ _ _ (assocLast_githubInstanceUpdates rc),
        assocLast_imageOSUpdates]
  rw [hlast]
  cases lastNonEmptyPlatform rc.interpolate rc.runsOn <;> rfl

/-- C7 counterexample: with `runs-on: [windows-2019, macos-11]` the code
sets `ImageOS` from the last label (`macos11`), not from the first
(`windows2019`) as the claim states. -/
theorem withGithubEnv_imageOS_last_not_first :
    withGithubEnv { rc0 with runsOn := ["windows-2019", "macos-11"] } emptyEnv "ImageOS"
      = some "macos11" ∧
    imageOSTransform "windows-2019" = "windows2019" ∧
    withGithubEnv { rc0 with runsOn := ["windows-2019", "macos-11"] } emptyEnv "ImageOS"
      ≠ some (imageOSTransform "windows-2019") := by
  refine ⟨by decide, by decide, by decide⟩

/-! ## C3: EvalBool quoting rule -/

theorem squote_data (x : String) : (squote x).data = '\'' :: (x.data ++ ['\'']) := by
  show (("'" ++ x) ++ "'").data = _
  rw [String.data_append, String.data_append]
  rfl

theorem squote_length (x : String) : (squote x).length = x.length + 2 := by
  show (("'" ++ x) ++ "'").length = _
  rw [String.length_append, String.length_append]
  show 1 + x.length + 1 = _
  omega

theorem ne_squote_self (s : String) : s ≠ squote s := by
  intro h
  have hl := congrArg String.length h
  rw [squote_length] at hl
  omega

theorem operator_ne_squote (part : String) (hop : operatorPatternMatch part = true)
    (x : String) : part ≠ squote x := by
  intro h
  have hd : part.data = '\'' :: (x.data ++ ['\'']) := by rw [h, squote_data]
  have hall := (Bool.and_elim_right hop)
  rw [List.all_eq_true] at hall
  have hmem : '\'' ∈ part.data := by rw [hd]; exact List.mem_cons_self _ _
  have := hall '\'' hmem
  exact absurd this (by decide)

theorem startsWithDollarBraces_mem (l : List Char)
    (h : startsWithDollarBraces l = true) : '$' ∈ l := by
  unfold startsWithDollarBraces at h
  split at h
  · exact List.mem_cons_self _ _
  · cases h

theorem hasExprBlock_opchars (cs : List Char)
    (h : ∀ c ∈ cs, operatorChars.contains c = true) : hasExprBlock cs = false := by
  unfold hasExprBlock
  rw [List.any_eq_false]
  intro i _
  by_cases hs : startsWithDollarBraces (cs.drop i) = true
  · have hm : '$' ∈ cs := List.drop_subset i cs (startsWithDollarBraces_mem _ hs)
    exact absurd (h '$' hm) (by decide)
  · simp [Bool.not_eq_true] at hs
    simp [hs]

theorem evalBoolLoop_length (interp : String → String × Bool) (parts : List String) :
    ∀ (n i : Nat), parts.length - i = n → (evalBoolLoop interp parts i).length = n := by
  intro n
  induction n with
  | zero =>
    intro i hi
    rw [evalBoolLoop, dif_neg (by omega)]
    rfl
  | succ n ih =>
    intro i hi
    rw [evalBoolLoop, dif_pos (by omega : i < parts.length)]
    simp [ih (i + 1) (by omega)]

theorem evalBoolLoop_getD (interp : String → String × Bool) (parts : List String) :
    ∀ (j i : Nat), i + j < parts.length →
      (evalBoolLoop interp parts i).getD j "" = evalBoolToken interp parts (i + j) := by
  intro j
  induction j with
  | zero =>
    intro i hi
    rw [evalBoolLoop, dif_pos (by omega : i < parts.length)]
    simp
  | succ j ih =>
    intro i hi
    rw [evalBoolLoop, dif_pos (by omega : i < parts.length)]
    rw [List.getD_cons_succ, ih (i + 1) (by omega),
      show i + 1 + j = i + (j + 1) from by omega]

/-- C3: a token of `EvalBool`'s loop has its interpolation wrapped in
single quotes exactly when it matches the expression-block pattern, does
not contain `!`, interpolates to the literal `"false"`, and was either
typed as a string or has an operator token as its immediate neighbour.
`interp` carries `InterpolateWithStringCheck`. -/
theorem evalBool_quoting_iff (interp : String → String × Bool) (parts : List String)
    (i : Nat) (hi : i < parts.length) :
    (evalBoolParts interp parts).length = parts.length ∧
    ((evalBoolParts interp parts).getD i "" = squote (interp (parts.getD i "")).1 ↔
      (expressionPatternMatch (parts.getD i "") = true ∧
       (parts.getD i "").data.contains '!' = false ∧
       (interp (parts.getD i "")).1 = "false" ∧
       ((interp (parts.getD i "")).2 = true ∨
         previousOrNextPartIsAnOperator i parts = true))) := by
  constructor
  · exact evalBoolLoop_length interp parts parts.length 0 (by omega)
  · show (evalBoolLoop interp parts 0).getD i "" = _ ↔ _
    rw [show (evalBoolLoop interp parts 0).getD i "" = evalBoolToken interp parts (0 + i)
        from evalBoolLoop_getD interp parts i 0 (by omega),
      show 0 + i = i from by omega]
    unfold evalBoolToken
    by_cases hop : operatorPatternMatch (parts.getD i "") = true
    · rw [if_pos hop]
      constructor
      · intro h
        exact absurd h (operator_ne_squote _ hop _)
      · rintro ⟨hexpr, -, -, -⟩
        have hall := (Bool.and_elim_right hop)
        rw [List.all_eq_true] at hall
        rw [show expressionPatternMatch (parts.getD i "") =
            hasExprBlock (parts.getD i "").data from rfl,
          hasExprBlock_opchars _ hall] at hexpr
        cases hexpr
    · rw [if_neg hop]
      by_cases hc : (expressionPatternMatch (parts.getD i "")
          && !(parts.getD i "").data.contains '!'
          && ((interp (parts.getD i "")).1 == "false")
          && ((interp (parts.getD i "")).2
              || previousOrNextPartIsAnOperator i parts)) = true
      · rw [if_pos hc]
        simp only [Bool.and_eq_true, Bool.or_eq_true, beq_iff_eq,
          Bool.not_eq_true'] at hc
        exact ⟨fun _ => ⟨hc.1.1.1, hc.1.1.2, hc.1.2, hc.2⟩, fun _ => rfl⟩
      · rw [if_neg hc]
        constructor
        · intro h
          exact absurd h (ne_squote_self _)
        · rintro ⟨h1, h2, h3, h4⟩
          exfalso
          apply hc
          simp only [Bool.and_eq_true, Bool.or_eq_true, beq_iff_eq,
            Bool.not_eq_true']
          exact ⟨⟨⟨h1, h2⟩, h3⟩, h4⟩

/-- C3 witness: the single token `$\x7b\x7b env.X \x7d\x7d` whose
interpolation is the string-typed `"false"` is quoted. -/
theorem evalBool_quoting_iff_witness :
    (evalBoolParts (fun _ => (("false" : String), true))
      ["$\x7b\x7b env.X \x7d\x7d"]).getD 0 "" = squote "false" := by
  have h := evalBool_quoting_iff (fun _ => (("false" : String), true))
    ["$\x7b\x7b env.X \x7d\x7d"] 0 (by decide)
  exact h.2.mpr ⟨by decide, by decide, rfl, Or.inl rfl⟩

/-! ## C2: container names -/

theorem collapse_nil : collapse [] = [] := rfl

theorem collapse_single (c : Char) : collapse [c] = [c] := rfl

theorem collapse_cons2 (c1 c2 : Char) (rest : List Char) :
    collapse (c1 :: c2 :: rest) =
      if c1 == '-' && c2 == '-' then '-' :: collapse rest
      else c1 :: collapse (c2 :: rest) := rfl

theorem collapse_head? : ∀ (l : List Char), (collapse l).head? = l.head?
  | [] => rfl
  | [_] => rfl
  | c1 :: c2 :: rest => by
    rw [collapse_cons2]
    by_cases h : (c1 == '-' && c2 == '-') = true
    · rw [if_pos h]
      have hc1 : c1 = '-' := eq_of_beq (Bool.and_elim_left h)
      rw [hc1]
      simp
    · rw [if_neg h]
      simp

theorem collapse_ne_nil : ∀ (l : List Char), l ≠ [] → collapse l ≠ []
  | [], h => absurd rfl h
  | [c], _ => by rw [collapse_single]; simp
  | c1 :: c2 :: rest, _ => by
    rw [collapse_cons2]
    by_cases h : (c1 == '-' && c2 == '-') = true <;> simp [h]

theorem collapse_getLast? : ∀ (l : List Char), (collapse l).getLast? = l.getLast?
  | [] => rfl
  | [_] => rfl
  | c1 :: c2 :: rest => by
    rw [collapse_cons2]
    by_cases h : (c1 == '-' && c2 == '-') = true
    · rw [if_pos h]
      cases rest with
      | nil =>
        have hc2 : c2 = '-' := eq_of_beq (Bool.and_elim_right h)
        rw [collapse_nil, hc2]
        simp
      | cons d ds =>
        obtain ⟨x, xs, hx⟩ := List.exists_cons_of_ne_nil
          (collapse_ne_nil (d :: ds) (by simp))
        rw [hx, List.getLast?_cons_cons, ← hx, collapse_getLast? (d :: ds),
          List.getLast?_cons_cons, List.getLast?_cons_cons]
    · rw [if_neg h]
      obtain ⟨x, xs, hx⟩ := List.exists_cons_of_ne_nil
        (collapse_ne_nil (c2 :: rest) (by simp))
      rw [hx, List.getLast?_cons_cons, ← hx, collapse_getLast? (c2 :: rest),
        List.getLast?_cons_cons]

theorem collapse_subset : ∀ (l : List Char), ∀ c ∈ collapse l, c ∈ l
  | [], c, hc => by rw [collapse_nil] at hc; cases hc
  | [d], c, hc => by rw [collapse_single] at hc; exact hc
  | c1 :: c2 :: rest, c, hc => by
    rw [collapse_cons2] at hc
    by_cases h : (c1 == '-' && c2 == '-') = true
    · rw [if_pos h] at hc
      rcases List.mem_cons.mp hc with rfl | hmem
      · have hc1 : c1 = '-' := eq_of_beq (Bool.and_elim_left h)
        rw [hc1]
        exact List.mem_cons_self _ _
      · exact List.mem_cons_of_mem _
          (List.mem_cons_of_mem _ (collapse_subset rest c hmem))
    · rw [if_neg h] at hc
      rcases List.mem_cons.mp hc with rfl | hmem
      · exact List.mem_cons_self _ _
      · exact List.mem_cons_of_mem _ (collapse_subset (c2 :: rest) c hmem)

theorem collapse_all_ne : ∀ (l : List Char), (∀ c ∈ l, c ≠ '-') → collapse l = l
  | [], _ => rfl
  | [_], _ => rfl
  | c1 :: c2 :: rest, h => by
    have hc1 : c1 ≠ '-' := h c1 (List.mem_cons_self _ _)
    have hneg : ¬(c1 == '-' && c2 == '-') = true := by simp [hc1]
    rw [collapse_cons2, if_neg hneg,
      collapse_all_ne (c2 :: rest) (fun c hc => h c (List.mem_cons_of_mem _ hc))]

theorem collapse_suffix (ds : List Char) (hne : ds ≠ [])
    (hd : ∀ c ∈ ds, c ≠ '-') :
    ∀ (pre : List Char), ∃ m, collapse (pre ++ '-' :: ds) = m ++ '-' :: ds
  | [] => by
    obtain ⟨d, ds', rfl⟩ := List.exists_cons_of_ne_nil hne
    have hdne : d ≠ '-' := hd d (List.mem_cons_self _ _)
    have hneg : ¬(('-' : Char) == '-' && d == '-') = true := by simp [hdne]
    refine ⟨[], ?_⟩
    show collapse ('-' :: d :: ds') = [] ++ '-' :: d :: ds'
    rw [collapse_cons2, if_neg hneg, collapse_all_ne (d :: ds') hd]
    rfl
  | [p] => by
    by_cases hp : p = '-'
    · subst hp
      refine ⟨[], ?_⟩
      show collapse ('-' :: '-' :: ds) = [] ++ '-' :: ds
      rw [collapse_cons2, if_pos (by decide), collapse_all_ne ds hd]
      rfl
    · obtain ⟨m, hm⟩ := collapse_suffix ds hne hd []
      have hneg : ¬(p == '-' && ('-' : Char) == '-') = true := by simp [hp]
      refine ⟨p :: m, ?_⟩
      show collapse (p :: '-' :: ds) = (p :: m) ++ '-' :: ds
      rw [collapse_cons2, if_neg hneg,
        show collapse ('-' :: ds) = m ++ '-' :: ds from hm]
      rfl
  | p :: q :: pre' => by
    by_cases hpq : (p == '-' && q == '-') = true
    · obtain ⟨m, hm⟩ := collapse_suffix ds hne hd pre'
      refine ⟨'-' :: m, ?_⟩
      show collapse (p :: q :: (pre' ++ '-' :: ds)) = ('-' :: m) ++ '-' :: ds
      rw [collapse_cons2, if_pos hpq, hm]
      rfl
    · obtain ⟨m, hm⟩ := collapse_suffix ds hne hd (q :: pre')
      refine ⟨p :: m, ?_⟩
      show collapse (p :: q :: (pre' ++ '-' :: ds)) = (p :: m) ++ '-' :: ds
      rw [collapse_cons2, if_neg hpq,
        show collapse (q :: (pre' ++ '-' :: ds)) = m ++ '-' :: ds from hm]
      rfl

theorem head?_dropWhile_false (p : Char → Bool) :
    ∀ (l : List Char) (c : Char), (List.dropWhile p l).head? = some c → p c = false := by
  intro l
  induction l with
  | nil => intro c h; cases h
  | cons x xs ih =>
    intro c h
    rw [List.dropWhile_cons] at h
    by_cases hx : p x = true
    · rw [if_pos hx] at h
      exact ih c h
    · rw [if_neg hx] at h
      cases h
      simpa using hx

theorem dropWhile_append_singleton (p : Char → Bool) (c : Char) (h : p c = false) :
    ∀ (xs : List Char), ∃ s, List.dropWhile p (xs ++ [c]) = s ++ [c]
  | [] => ⟨[], by simp [List.dropWhile_cons, h]⟩
  | x :: xs => by
    by_cases hx : p x = true
    · obtain ⟨s, hs⟩ := dropWhile_append_singleton p c h xs
      exact ⟨s, by rw [List.cons_append, List.dropWhile_cons, if_pos hx, hs]⟩
    · exact ⟨x :: xs, by rw [List.cons_append, List.dropWhile_cons, if_neg hx]⟩

theorem rtrimHyphen_cons_ne (c : Char) (t : List Char) (h : (c == '-') = false) :
    ∃ m, rtrimHyphen (c :: t) = c :: m := by
  unfold rtrimHyphen
  rw [List.reverse_cons]
  obtain ⟨s, hs⟩ := dropWhile_append_singleton (fun x => x == '-') c h t.reverse
  exact ⟨s.reverse, by rw [hs, List.reverse_append]; rfl⟩

theorem rtrimHyphen_getLast_ne (l : List Char) (c : Char)
    (h : (rtrimHyphen l).getLast? = some c) : (c == '-') = false := by
  unfold rtrimHyphen at h
  rw [List.getLast?_reverse] at h
  exact head?_dropWhile_false (fun x => x == '-') l.reverse c h

theorem rtrimHyphen_eq_self (l : List Char) (c : Char) (hl : l.getLast? = some c)
    (hc : (c == '-') = false) : rtrimHyphen l = l := by
  have hrev : l.reverse.head? = some c := by rw [List.head?_reverse, hl]
  rcases hrl : l.reverse with _ | ⟨x, u⟩
  · rw [hrl] at hrev; cases hrev
  · rw [hrl] at hrev
    have hx : x = c := by cases hrev; rfl
    unfold rtrimHyphen
    rw [hrl, List.dropWhile_cons, if_neg (by simp [hx, hc]), ← hrl,
      List.reverse_reverse]

theorem ltrimHyphen_cons_ne (c : Char) (t : List Char) (h : (c == '-') = false) :
    ltrimHyphen (c :: t) = c :: t := by
  unfold ltrimHyphen
  rw [List.dropWhile_cons, if_neg (by simp [h])]

theorem trimHyphen_subset (l : List Char) : ∀ c ∈ trimHyphen l, c ∈ l := by
  intro c hc
  unfold trimHyphen rtrimHyphen at hc
  rw [List.mem_reverse] at hc
  have h1 := (List.dropWhile_sublist (fun x => x == '-')).subset hc
  rw [List.mem_reverse] at h1
  unfold ltrimHyphen at h1
  exact (List.dropWhile_sublist (fun x => x == '-')).subset h1

theorem sanitize_chars (cs : List Char) :
    ∀ c ∈ sanitize cs, isAlnumB c = true ∨ c = '-' := by
  intro c hc
  unfold sanitize at hc
  obtain ⟨a, _, ha⟩ := List.mem_map.mp hc
  by_cases hA : isAlnumB a = true
  · left; rw [← ha, if_pos hA]; exact hA
  · right; rw [← ha, if_neg hA]

theorem sanitize_append (a b : List Char) :
    sanitize (a ++ b) = sanitize a ++ sanitize b := List.map_append _ a b

theorem isDigitB_isAlnumB (c : Char) (h : isDigitB c = true) : isAlnumB c = true := by
  unfold isAlnumB
  unfold isDigitB at h
  rw [h]
  simp

theorem isDigitB_ne_hyphen (c : Char) (h : isDigitB c = true) : c ≠ '-' := by
  intro hc
  subst hc
  exact absurd h (by decide)

theorem sanitize_digits (l : List Char) (h : ∀ c ∈ l, isDigitB c = true) :
    sanitize l = l := by
  induction l with
  | nil => rfl
  | cons x xs ih =>
    unfold sanitize
    rw [List.map_cons]
    have hx : isAlnumB x = true := isDigitB_isAlnumB x (h x (List.mem_cons_self _ _))
    rw [if_pos hx]
    have := ih (fun c hc => h c (List.mem_cons_of_mem _ hc))
    unfold sanitize at this
    rw [this]

theorem jobContainerName_data (wf job : String) :
    (jobContainerName wf job).data =
      collapse (trimHyphen ('a' :: 'c' :: 't' :: '-' ::
        sanitize (wf ++ "/" ++ job).data)) := by
  show (createContainerName ["act", wf ++ "/" ++ job]).data = _
  unfold createContainerName
  simp only [List.length_cons, List.length_nil]
  norm_num
  rw [show buildNameParts 14 ["act", wf ++ "/" ++ job]
      = [['a', 'c', 't'], sanitize (wf ++ "/" ++ job).data] from rfl]
  simp [joinHyphen, String.data_append]

/-- C2 (amended): every job-container name consists solely of ASCII
alphanumerics and hyphens, starts with the `a` of the `act` prefix (so it
has no leading hyphen), never ends in a hyphen, and preserves a trailing
matrix suffix `-<digits>` of the job part; runs of `--` and user-derived
content longer than 30 characters can, however, occur. -/
theorem containerName_amended (wf job : String) :
    (∀ c ∈ (jobContainerName wf job).data, isAlnumB c = true ∨ c = '-') ∧
    (jobContainerName wf job).data.head? = some 'a' ∧
    (∀ c, (jobContainerName wf job).data.getLast? = some c → c ≠ '-') ∧
    (∀ ds : String, ds.data ≠ [] → (∀ c ∈ ds.data, isDigitB c = true) →
      ∀ jpre : List Char, job.data = jpre ++ '-' :: ds.data →
        ∃ m, (jobContainerName wf job).data = m ++ '-' :: ds.data) := by
  have hlt : ltrimHyphen ('a' :: 'c' :: 't' :: '-' :: sanitize (wf ++ "/" ++ job).data)
      = 'a' :: 'c' :: 't' :: '-' :: sanitize (wf ++ "/" ++ job).data :=
    ltrimHyphen_cons_ne 'a' _ (by decide)
  refine ⟨?_, ?_, ?_, ?_⟩
  · intro c hc
    rw [jobContainerName_data] at hc
    have h1 := trimHyphen_subset _ c (collapse_subset _ c hc)
    simp only [List.mem_cons] at h1
    rcases h1 with rfl | rfl | rfl | rfl | hS
    · left; decide
    · left; decide
    · left; decide
    · right; rfl
    · exact sanitize_chars _ c hS
  · rw [jobContainerName_data, collapse_head?]
    unfold trimHyphen
    rw [hlt]
    obtain ⟨m, hm⟩ := rtrimHyphen_cons_ne 'a'
      ('c' :: 't' :: '-' :: sanitize (wf ++ "/" ++ job).data) (by decide)
    rw [hm]
    rfl
  · intro c hc
    rw [jobContainerName_data, collapse_getLast?] at hc
    unfold trimHyphen at hc
    rw [hlt] at hc
    have hne := rtrimHyphen_getLast_ne _ c hc
    simpa using hne
  · intro ds hne hdig jpre hjob
    have hS : sanitize (wf ++ "/" ++ job).data
        = sanitize (wf.data ++ '/' :: jpre) ++ '-' :: ds.data := by
      have hdata : (wf ++ "/" ++ job).data
          = (wf.data ++ '/' :: jpre) ++ '-' :: ds.data := by
        simp [String.data_append, hjob]
      rw [hdata, sanitize_append,
        show sanitize ('-' :: ds.data) = '-' :: sanitize ds.data from rfl,
        sanitize_digits ds.data hdig]
    have hT : ('a' :: 'c' :: 't' :: '-' :: sanitize (wf ++ "/" ++ job).data)
        = ('a' :: 'c' :: 't' :: '-' :: sanitize (wf.data ++ '/' :: jpre))
          ++ '-' :: ds.data := by
      rw [hS]
      rfl
    obtain ⟨d, ds', hds⟩ := List.exists_cons_of_ne_nil hne
    have hTlast : ('a' :: 'c' :: 't' :: '-'
          :: sanitize (wf ++ "/" ++ job).data).getLast? = (d :: ds').getLast? := by
      rw [hT, hds]
      rw [List.getLast?_append_of_ne_nil _ (by simp), List.getLast?_cons_cons]
    obtain ⟨x, hx⟩ := Option.isSome_iff_exists.mp
      (by simp [List.getLast?_isSome] : (d :: ds').getLast?.isSome)
    have hxdig : isDigitB x = true := by
      refine hdig x ?_
      rw [hds]
      exact List.mem_of_mem_getLast? hx
    have hxne : (x == '-') = false := by
      simpa using isDigitB_ne_hyphen x hxdig
    have hrt := rtrimHyphen_eq_self
      ('a' :: 'c' :: 't' :: '-' :: sanitize (wf ++ "/" ++ job).data) x
      (by rw [hTlast]; exact hx) hxne
    obtain ⟨m, hm⟩ := collapse_suffix ds.data hne
      (fun c hc => isDigitB_ne_hyphen c (hdig c hc))
      ('a' :: 'c' :: 't' :: '-' :: sanitize (wf.data ++ '/' :: jpre))
    refine ⟨m, ?_⟩
    rw [jobContainerName_data]
    unfold trimHyphen
    rw [hlt, hrt, hT]
    exact hm

/-- C2 witness: workflow `w`, job `build-3` — the name starts with `a`
and ends with the matrix suffix `-3`. -/
theorem containerName_amended_witness :
    (jobContainerName "w" "build-3").data.head? = some 'a' ∧
    (∃ m, (jobContainerName "w" "build-3").data = m ++ '-' :: ("3" : String).data) := by
  have h := containerName_amended "w" "build-3"
  exact ⟨h.2.1, h.2.2.2 "3" (by decide) (by decide) "build".data (by decide)⟩

/-- C2 counterexample: for the job name `a!!!b` followed by 31 `c`s the
produced name `act-w-a--bcc…c` contains a `--` run (the single
`ReplaceAll("--","-")` pass leaves one behind) so it fails the claim's
regex, and it is 41 characters long, far beyond 30 characters of
user-derived content (the final part is never trimmed). -/
theorem containerName_counterexample :
    specNamePattern (jobContainerName "w"
      ("a!!!b" ++ String.mk (List.replicate 31 'c'))) = false ∧
    (jobContainerName "w" ("a!!!b" ++ String.mk (List.replicate 31 'c'))).length
      = 41 := by
  constructor <;> decide
